import Mathlib

/-!
Verification of the block-aligning stream adapter of wrapio.

The Go type `block` (src/wrapio.go) holds a block size, a pending byte
buffer and the first recorded error. Its methods `Read`, `Write` and
`Close` are embedded below as pure functions on an explicit state.
Bytes are modelled as natural numbers; errors are natural codes inside
`Option`, with code 0 standing for end-of-data (io.EOF). The upstream
reader or writer is passed to each operation: for `Read` as the pair
(chunk, error) the single upstream read would produce, for `Write` and
`Close` as the sink function the single upstream write would call.
-/

namespace Wrapio

/-- The state of the Go struct `block`: block size, pending buffer of
bytes not yet delivered or forwarded, and the recorded error from the
last upstream read or the first failed forward. -/
structure Block where
  size : Nat
  buf : List Nat
  err : Option Nat
deriving DecidableEq

/-- Result of one call of `block.Read`: the new state, the bytes placed
into the destination (the Go call returns their count together with the
error), and whether the upstream source was consulted. -/
structure ReadResult where
  state : Block
  out : List Nat
  rerr : Option Nat
  touched : Bool
deriving DecidableEq

/-- The clamping of the candidate count in `block.Read`: the count is
lowered to the whole blocks available in the buffer when the buffer is
shorter, and in an error state a leftover shorter than one block is
delivered whole as the last send. -/
def clampN (S bl n0 : Nat) (e : Option Nat) : Nat :=
  let n1 := if n0 > bl then bl / S * S else n0
  if e.isSome ∧ n1 = 0 then bl else n1

/-- One call of `block.Read` with a destination buffer of length `L`.
`chunk` and `rerr` are the bytes and error the single upstream read
would return; they are consulted only when the code reaches that read. -/
def blockRead (b : Block) (L : Nat) (chunk : List Nat) (rerr : Option Nat) :
    ReadResult :=
  if b.err.isSome ∧ b.buf = [] then
    ⟨b, [], b.err, false⟩
  else if L / b.size * b.size = 0 then
    ⟨b, [], none, false⟩
  else
    let buf1 := if b.err = none then b.buf ++ chunk else b.buf
    let err1 := if b.err = none then rerr else b.err
    let n2 := clampN b.size buf1.length (L / b.size * b.size) err1
    ⟨⟨b.size, buf1.drop n2, err1⟩, buf1.take n2, none, b.err.isNone⟩

/-- Result of one call of `block.Write`: the new state, the returned
count and error, and the list of calls made to the upstream sink (each
entry is the byte sequence passed to one sink call). -/
structure WriteResult where
  state : Block
  n : Nat
  rerr : Option Nat
  calls : List (List Nat)
deriving DecidableEq

/-- One call of `block.Write` with input `p`. The upstream sink is the
function `sink`, returning the accepted count and error of one call. -/
def blockWrite (b : Block) (sink : List Nat → Nat × Option Nat)
    (p : List Nat) : WriteResult :=
  if b.err.isSome then ⟨b, 0, b.err, []⟩
  else
    let buf1 := b.buf ++ p
    let l := buf1.length / b.size * b.size
    if l = 0 then ⟨⟨b.size, buf1, none⟩, p.length, none, []⟩
    else
      let s := sink (buf1.take l)
      match s.2 with
      | some e => ⟨⟨b.size, buf1.drop l, some e⟩, s.1, some e, [buf1.take l]⟩
      | none => ⟨⟨b.size, buf1.drop l, none⟩, p.length, none, [buf1.take l]⟩

/-- One call of `block.Close`: returns the unchanged state, the returned
error, and the sink calls made. The Go code mutates nothing here. -/
def blockClose (b : Block) (sink : List Nat → Nat × Option Nat) :
    Block × Option Nat × List (List Nat) :=
  if b.err.isSome then (b, b.err, [])
  else if 0 < b.buf.length then (b, (sink b.buf).2, [b.buf])
  else (b, none, [])

/-- The canonical upstream source over a byte list, as strings.Reader
behaves: a read with capacity `L` returns up to `L` bytes and no error
while data remains, and (0 bytes, EOF) once the data is exhausted.
Returns (chunk, error, remaining data). -/
def srcRead (src : List Nat) (L : Nat) : List Nat × Option Nat × List Nat :=
  if src = [] then ([], some 0, [])
  else (src.take L, none, src.drop L)

/-- Drive `blockRead` against the canonical source until it returns an
error, collecting the byte sequences of the successful calls. The
source position advances only when the adapter consulted it. The Bool
reports whether the terminal return was reached within the fuel. -/
def runReader (L : Nat) : Nat → Block → List Nat → List (List Nat) × Bool
  | 0, _, _ => ([], false)
  | fuel + 1, b, src =>
    let u := srcRead src L
    let res := blockRead b L u.1 u.2.1
    if res.rerr.isSome then ([], true)
    else
      let src2 := if res.touched then u.2.2 else src
      let r2 := runReader L fuel res.state src2
      (res.out :: r2.1, r2.2)

/-- A sink that accepts every write in full without error, as
bytes.Buffer behaves. -/
def perfectSink : List Nat → Nat × Option Nat := fun d => (d.length, none)

/-- Perform a sequence of writes, collecting all sink calls made. -/
def runWriter (sink : List Nat → Nat × Option Nat) :
    Block → List (List Nat) → Block × List (List Nat)
  | b, [] => (b, [])
  | b, p :: ps =>
    let res := blockWrite b sink p
    let r2 := runWriter sink res.state ps
    (r2.1, res.calls ++ r2.2)

/-- The freshly constructed adapter of NewBlockReader and
NewBlockWriter: empty buffer, no recorded error. -/
def initB (S : Nat) : Block := ⟨S, [], none⟩

/-- Fuel sufficient for `runReader` to reach the terminal return. -/
def mR (b : Block) (src : List Nat) : Nat :=
  2 * src.length + b.buf.length + (if b.err.isSome then 0 else 2) + 1

example :
    runReader 5 23 (initB 3) [48, 49, 50, 51, 52, 53, 54, 55, 56, 57] =
      ([[48, 49, 50], [51, 52, 53], [54, 55, 56], [57]], true) := by decide

example :
    (runWriter perfectSink (initB 2)
      [[48, 49, 50, 51, 52], [53, 54, 55, 56], [57, 48]]).2 =
      [[48, 49, 50, 51], [52, 53, 54, 55], [56, 57]] := by decide

/-! ## Branch equations for the step functions -/

lemma blockRead_drained (b : Block) (L : Nat) (c : List Nat) (r : Option Nat)
    (h1 : b.err.isSome) (h2 : b.buf = []) :
    blockRead b L c r = ⟨b, [], b.err, false⟩ := by
  simp [blockRead, h1, h2]

lemma blockRead_small (b : Block) (L : Nat) (c : List Nat) (r : Option Nat)
    (h1 : ¬(b.err.isSome ∧ b.buf = [])) (h2 : L / b.size * b.size = 0) :
    blockRead b L c r = ⟨b, [], none, false⟩ := by
  simp only [blockRead, if_neg h1, if_pos h2]

lemma blockRead_active (b : Block) (L : Nat) (c : List Nat) (r : Option Nat)
    (h1 : b.err = none) (h2 : L / b.size * b.size ≠ 0) :
    blockRead b L c r =
      ⟨⟨b.size,
        (b.buf ++ c).drop
          (clampN b.size (b.buf ++ c).length (L / b.size * b.size) r), r⟩,
       (b.buf ++ c).take
          (clampN b.size (b.buf ++ c).length (L / b.size * b.size) r),
       none, true⟩ := by
  have h1s : ¬(b.err.isSome = true ∧ b.buf = []) := by simp [h1]
  unfold blockRead
  rw [if_neg h1s, if_neg h2]
  simp [h1]

lemma blockRead_errored (b : Block) (L : Nat) (c : List Nat) (r : Option Nat)
    (e : Nat) (h1 : b.err = some e) (hb : b.buf ≠ [])
    (h2 : L / b.size * b.size ≠ 0) :
    blockRead b L c r =
      ⟨⟨b.size,
        b.buf.drop (clampN b.size b.buf.length (L / b.size * b.size) (some e)),
        some e⟩,
       b.buf.take (clampN b.size b.buf.length (L / b.size * b.size) (some e)),
       none, false⟩ := by
  have h1s : ¬(b.err.isSome = true ∧ b.buf = []) := by simp [h1, hb]
  unfold blockRead
  rw [if_neg h1s, if_neg h2]
  simp [h1]

lemma blockWrite_errored (b : Block) (sink : List Nat → Nat × Option Nat)
    (p : List Nat) (e : Nat) (h : b.err = some e) :
    blockWrite b sink p = ⟨b, 0, some e, []⟩ := by
  unfold blockWrite
  rw [if_pos (by simp [h] : b.err.isSome = true)]
  simp [h]

lemma blockWrite_small (b : Block) (sink : List Nat → Nat × Option Nat)
    (p : List Nat) (h : b.err = none)
    (hl : (b.buf ++ p).length / b.size * b.size = 0) :
    blockWrite b sink p = ⟨⟨b.size, b.buf ++ p, none⟩, p.length, none, []⟩ := by
  have hs : ¬ b.err.isSome = true := by simp [h]
  unfold blockWrite
  simp only [if_neg hs, if_pos hl]

lemma blockWrite_forward (b : Block) (sink : List Nat → Nat × Option Nat)
    (p : List Nat) (h : b.err = none)
    (hl : (b.buf ++ p).length / b.size * b.size ≠ 0) :
    blockWrite b sink p =
      (let l := (b.buf ++ p).length / b.size * b.size
       let s := sink ((b.buf ++ p).take l)
       match s.2 with
       | some e =>
           ⟨⟨b.size, (b.buf ++ p).drop l, some e⟩, s.1, some e,
            [(b.buf ++ p).take l]⟩
       | none =>
           ⟨⟨b.size, (b.buf ++ p).drop l, none⟩, p.length, none,
            [(b.buf ++ p).take l]⟩) := by
  have hs : ¬ b.err.isSome = true := by simp [h]
  unfold blockWrite
  simp only [if_neg hs, if_neg hl]

/-! ## Arithmetic facts about the clamping -/

lemma clampN_le_bl (S bl n0 : Nat) (e : Option Nat) :
    clampN S bl n0 e ≤ bl := by
  unfold clampN
  by_cases hgt : n0 > bl
  · simp only [if_pos hgt]
    split
    · exact le_rfl
    · exact Nat.div_mul_le_self bl S
  · simp only [if_neg hgt]
    split
    · exact le_rfl
    · omega

lemma clampN_cases (S bl n0 : Nat) (e : Option Nat) (hS : 1 ≤ S)
    (h0 : S ∣ n0) (hn0 : n0 ≠ 0) :
    S ∣ clampN S bl n0 e ∨ (clampN S bl n0 e = bl ∧ bl < S) := by
  unfold clampN
  by_cases hgt : n0 > bl
  · simp only [if_pos hgt]
    split
    · rename_i hc
      right
      refine ⟨rfl, ?_⟩
      have hdiv : bl / S = 0 := by
        rcases Nat.mul_eq_zero.mp hc.2 with h | h
        · exact h
        · omega
      by_contra hge
      push_neg at hge
      have := Nat.one_le_div_iff hS |>.mpr hge
      omega
    · exact Or.inl ⟨bl / S, Nat.mul_comm (bl / S) S⟩
  · simp only [if_neg hgt]
    split
    · rename_i hc
      exact absurd hc.2 hn0
    · exact Or.inl h0

lemma clampN_pos (S bl n0 : Nat) (e : Option Nat) (he : e.isSome)
    (hbl : 1 ≤ bl) : 1 ≤ clampN S bl n0 e := by
  unfold clampN
  by_cases hz : (if n0 > bl then bl / S * S else n0) = 0
  · simp only [he, hz, true_and, if_true]
    exact hbl
  · simp only [hz, and_false, if_false]
    omega

lemma clampN_none_dvd (S bl n0 : Nat) (h0 : S ∣ n0) :
    S ∣ clampN S bl n0 none := by
  unfold clampN
  simp only [Option.isSome_none, Bool.false_eq_true, false_and, if_false]
  split
  · exact ⟨bl / S, Nat.mul_comm (bl / S) S⟩
  · exact h0

lemma div_mul_zero_lt (S n : Nat) (hS : 1 ≤ S) (h : n / S * S = 0) :
    n < S := by
  have hdiv : n / S = 0 := by
    rcases Nat.mul_eq_zero.mp h with h1 | h1
    · exact h1
    · omega
  by_contra hge
  push_neg at hge
  have := Nat.one_le_div_iff hS |>.mpr hge
  omega

lemma sub_div_mul_eq_mod (n S : Nat) : n - n / S * S = n % S := by
  have h2 := Nat.div_add_mod n S
  rw [Nat.mul_comm] at h2
  omega

lemma clampN_leftover_lt (S bl n0 : Nat) (e : Option Nat) (hS : 1 ≤ S)
    (hn0 : n0 ≠ 0) (hbl : bl < S + n0) :
    bl - clampN S bl n0 e < S := by
  have h2 := Nat.div_add_mod bl S
  rw [Nat.mul_comm] at h2
  have hm : bl % S < S := Nat.mod_lt bl (by omega)
  unfold clampN
  simp only []
  split_ifs <;> omega

/-- The number of whole-block bytes `block.Write` forwards on a call
with input `p`: the length of the buffer after appending the input,
rounded down to a multiple of the block size. -/
def wholeLen (b : Block) (p : List Nat) : Nat :=
  (b.buf ++ p).length / b.size * b.size

/-- The forwarding branch of `block.Write` when the sink call fails:
the whole blocks are removed from the buffer, the error is recorded,
and the sink count is returned with the error. -/
lemma blockWrite_fail (b : Block) (sink : List Nat → Nat × Option Nat)
    (p : List Nat) (m e : Nat) (h : b.err = none) (hl : wholeLen b p ≠ 0)
    (hs : sink ((b.buf ++ p).take (wholeLen b p)) = (m, some e)) :
    blockWrite b sink p =
      ⟨⟨b.size, (b.buf ++ p).drop (wholeLen b p), some e⟩, m, some e,
       [(b.buf ++ p).take (wholeLen b p)]⟩ := by
  rw [blockWrite_forward b sink p h hl]
  simp only [wholeLen] at hs ⊢
  rw [hs]

/-- The success path of `block.Write`: when the sink never errors, the
call reports the full input length accepted with no error. -/
lemma blockWrite_ok (b : Block) (sink : List Nat → Nat × Option Nat)
    (p : List Nat) (h : b.err = none) (hs : ∀ d, (sink d).2 = none) :
    (blockWrite b sink p).n = p.length ∧
    (blockWrite b sink p).rerr = none := by
  by_cases hl : (b.buf ++ p).length / b.size * b.size = 0
  · rw [blockWrite_small b sink p h hl]
    exact ⟨rfl, rfl⟩
  · rw [blockWrite_forward b sink p h hl]
    simp [hs]

/-! ## Claim C4: write reports the full input length on success -/

/-- Claim C4: for a block writer not in a terminal state, when the
forwarding call to the sink succeeds or no forwarding is attempted,
`Write` returns (len(data), no error), i.e. the full input length is
reported accepted. -/
theorem blockWrite_reports_full_length (b : Block)
    (sink : List Nat → Nat × Option Nat) (p : List Nat)
    (h : b.err = none) (hs : ∀ d, (sink d).2 = none) :
    (blockWrite b sink p).n = p.length ∧
    (blockWrite b sink p).rerr = none :=
  blockWrite_ok b sink p h hs

theorem blockWrite_reports_full_length_witness :
    (blockWrite (initB 2) perfectSink [1, 2, 3]).n = 3 ∧
    (blockWrite (initB 2) perfectSink [1, 2, 3]).rerr = none :=
  blockWrite_reports_full_length (initB 2) perfectSink [1, 2, 3] rfl
    (fun _ => rfl)

/-! ## Claim C5: a failed forwarding call reports the sink count -/

/-- Claim C5: for a block writer not in a terminal state, if the
forwarding call to the sink returns an error, `Write` records the error
as terminal and returns exactly the count the sink reported together
with that error. -/
theorem blockWrite_error_reports_sink_count (b : Block)
    (sink : List Nat → Nat × Option Nat) (p : List Nat) (m e : Nat)
    (h : b.err = none) (hl : wholeLen b p ≠ 0)
    (hs : sink ((b.buf ++ p).take (wholeLen b p)) = (m, some e)) :
    (blockWrite b sink p).n = m ∧
    (blockWrite b sink p).rerr = some e ∧
    (blockWrite b sink p).state.err = some e := by
  rw [blockWrite_fail b sink p m e h hl hs]
  exact ⟨rfl, rfl, rfl⟩

theorem blockWrite_error_reports_sink_count_witness :
    (blockWrite (initB 2) (fun _ => (1, some 7)) [1, 2, 3]).n = 1 ∧
    (blockWrite (initB 2) (fun _ => (1, some 7)) [1, 2, 3]).rerr = some 7 ∧
    (blockWrite (initB 2) (fun _ => (1, some 7)) [1, 2, 3]).state.err =
      some 7 :=
  blockWrite_error_reports_sink_count (initB 2) (fun _ => (1, some 7))
    [1, 2, 3] 1 7 rfl (by decide) rfl

/-! ## Claim C6: the recorded write error is sticky -/

/-- Claim C6: after a forwarding call has failed with error `e`, every
later `Write` returns (0, e) without changing the buffer and without
calling the sink, and `Close` also returns `e` without calling the
sink. -/
theorem blockWrite_sticky_error (b : Block)
    (sink0 sink1 sink2 : List Nat → Nat × Option Nat) (p0 p : List Nat)
    (m e : Nat) (h : b.err = none) (hl : wholeLen b p0 ≠ 0)
    (hs : sink0 ((b.buf ++ p0).take (wholeLen b p0)) = (m, some e)) :
    blockWrite (blockWrite b sink0 p0).state sink1 p =
      ⟨(blockWrite b sink0 p0).state, 0, some e, []⟩ ∧
    blockClose (blockWrite b sink0 p0).state sink2 =
      ((blockWrite b sink0 p0).state, some e, []) := by
  have herr : (blockWrite b sink0 p0).state.err = some e := by
    rw [blockWrite_fail b sink0 p0 m e h hl hs]
  constructor
  · exact blockWrite_errored _ sink1 p e herr
  · unfold blockClose
    rw [if_pos (show (blockWrite b sink0 p0).state.err.isSome = true by
      simp [herr]), herr]

theorem blockWrite_sticky_error_witness :
    blockWrite (blockWrite (initB 2) (fun _ => (1, some 7)) [1, 2, 3]).state
        perfectSink [4, 5] =
      ⟨(blockWrite (initB 2) (fun _ => (1, some 7)) [1, 2, 3]).state, 0,
       some 7, []⟩ ∧
    blockClose (blockWrite (initB 2) (fun _ => (1, some 7)) [1, 2, 3]).state
        perfectSink =
      ((blockWrite (initB 2) (fun _ => (1, some 7)) [1, 2, 3]).state,
       some 7, []) :=
  blockWrite_sticky_error (initB 2) (fun _ => (1, some 7)) perfectSink
    perfectSink [1, 2, 3] [4, 5] 1 7 rfl (by decide) rfl

/-! ## Claim C7: the drained terminal reader state is absorbing -/

/-- Claim C7: a block reader whose terminal condition is recorded and
whose buffer is empty returns (0, terminal condition) on every read,
with any destination length, without consulting the upstream source
and without changing state. -/
theorem blockRead_drained_terminal (b : Block) (L : Nat) (c : List Nat)
    (r : Option Nat) (e : Nat) (h1 : b.err = some e) (h2 : b.buf = []) :
    blockRead b L c r = ⟨b, [], some e, false⟩ := by
  rw [blockRead_drained b L c r (by simp [h1]) h2, h1]

theorem blockRead_drained_terminal_witness :
    blockRead ⟨3, [], some 0⟩ 10 [7] none =
      ⟨⟨3, [], some 0⟩, [], some 0, false⟩ :=
  blockRead_drained_terminal ⟨3, [], some 0⟩ 10 [7] none 0 rfl rfl

/-! ## Claim C8 (corrected): a short destination returns (0, no error)
only outside the drained terminal state -/

/-- Counterexample to claim C8 as stated: in the drained terminal state
(error recorded, buffer empty) a read with a destination shorter than
the block size returns the terminal error, not the no-error value the
claim promises for every state. -/
theorem blockRead_small_dest_cex :
    (blockRead ⟨2, [], some 0⟩ 1 [] none).rerr = some 0 ∧
    some 0 ≠ (none : Option Nat) := by decide

/-- Claim C8 as amended: a read with a destination shorter than the
block size returns (0, no error), does not touch the upstream source
and leaves the state unchanged, in every state except the drained
terminal state (terminal condition recorded and buffer empty). -/
theorem blockRead_small_dest (b : Block) (L : Nat) (c : List Nat)
    (r : Option Nat) (hL : L < b.size)
    (h : ¬(b.err.isSome = true ∧ b.buf = [])) :
    blockRead b L c r = ⟨b, [], none, false⟩ := by
  apply blockRead_small b L c r h
  rw [Nat.div_eq_of_lt hL, Nat.zero_mul]

theorem blockRead_small_dest_witness :
    blockRead ⟨3, [5], some 0⟩ 2 [] none =
      ⟨⟨3, [5], some 0⟩, [], none, false⟩ :=
  blockRead_small_dest ⟨3, [5], some 0⟩ 2 [] none (by decide) (by decide)

/-! ## Claim C9: bytes the sink did not accept are discarded -/

/-- Claim C9: when the forwarding call reports that the sink accepted
`m` of the `l` forwarded bytes together with an error and `m < l`, the
writer still removes all `l` bytes from the buffer, and neither a later
write nor a later close makes any further sink call. -/
theorem blockWrite_discards_unaccepted (b : Block)
    (sink : List Nat → Nat × Option Nat) (p : List Nat) (m e : Nat)
    (h : b.err = none) (hl : wholeLen b p ≠ 0)
    (hs : sink ((b.buf ++ p).take (wholeLen b p)) = (m, some e))
    (hm : m < wholeLen b p) :
    (blockWrite b sink p).state.buf = (b.buf ++ p).drop (wholeLen b p) ∧
    (blockWrite b sink p).state.err = some e ∧
    (∀ (q : List Nat) (sink2 : List Nat → Nat × Option Nat),
      (blockWrite (blockWrite b sink p).state sink2 q).calls = [] ∧
      (blockWrite (blockWrite b sink p).state sink2 q).state =
        (blockWrite b sink p).state) ∧
    (∀ sink3 : List Nat → Nat × Option Nat,
      (blockClose (blockWrite b sink p).state sink3).2.2 = []) := by
  have heq := blockWrite_fail b sink p m e h hl hs
  have herr : (blockWrite b sink p).state.err = some e := by rw [heq]
  refine ⟨by rw [heq], herr, ?_, ?_⟩
  · intro q sink2
    rw [blockWrite_errored _ sink2 q e herr]
    exact ⟨rfl, rfl⟩
  · intro sink3
    unfold blockClose
    rw [if_pos (show (blockWrite b sink p).state.err.isSome = true by
      simp [herr])]

theorem blockWrite_discards_unaccepted_witness :
    (blockWrite (initB 2) (fun _ => (1, some 7)) [1, 2, 3]).state.buf =
      [3] ∧
    (blockWrite (initB 2) (fun _ => (1, some 7)) [1, 2, 3]).state.err =
      some 7 ∧
    (∀ (q : List Nat) (sink2 : List Nat → Nat × Option Nat),
      (blockWrite
        (blockWrite (initB 2) (fun _ => (1, some 7)) [1, 2, 3]).state
        sink2 q).calls = [] ∧
      (blockWrite
        (blockWrite (initB 2) (fun _ => (1, some 7)) [1, 2, 3]).state
        sink2 q).state =
        (blockWrite (initB 2) (fun _ => (1, some 7)) [1, 2, 3]).state) ∧
    (∀ sink3 : List Nat → Nat × Option Nat,
      (blockClose
        (blockWrite (initB 2) (fun _ => (1, some 7)) [1, 2, 3]).state
        sink3).2.2 = []) :=
  blockWrite_discards_unaccepted (initB 2) (fun _ => (1, some 7))
    [1, 2, 3] 1 7 rfl (by decide) rfl (by decide)

/-! ## Claim C10: close mutates nothing -/

/-- Claim C10: for a writer not in a terminal state holding a non-empty
final block, a close whose flush the sink accepts without error leaves
the buffer and the recorded terminal state unchanged; a second close
forwards the same bytes to the sink again, and later writes are still
accepted. -/
theorem blockClose_no_mutation (b : Block) (p : List Nat)
    (h : b.err = none) (hb : b.buf ≠ []) :
    blockClose b perfectSink = (b, none, [b.buf]) ∧
    blockClose (blockClose b perfectSink).1 perfectSink =
      (b, none, [b.buf]) ∧
    (blockWrite b perfectSink p).n = p.length ∧
    (blockWrite b perfectSink p).rerr = none := by
  have hclose : blockClose b perfectSink = (b, none, [b.buf]) := by
    unfold blockClose
    rw [if_neg (show ¬ b.err.isSome = true by simp [h]),
      if_pos (List.length_pos.mpr hb)]
    rfl
  refine ⟨hclose, ?_, blockWrite_ok b perfectSink p h (fun _ => rfl)⟩
  rw [hclose]
  exact hclose

theorem blockClose_no_mutation_witness :
    blockClose ⟨2, [9], none⟩ perfectSink =
      (⟨2, [9], none⟩, none, [[9]]) ∧
    blockClose (blockClose ⟨2, [9], none⟩ perfectSink).1 perfectSink =
      (⟨2, [9], none⟩, none, [[9]]) ∧
    (blockWrite ⟨2, [9], none⟩ perfectSink [1, 2]).n = 2 ∧
    (blockWrite ⟨2, [9], none⟩ perfectSink [1, 2]).rerr = none :=
  blockClose_no_mutation ⟨2, [9], none⟩ [1, 2] rfl (by decide)

/-! ## Claim C3 (corrected): the pending buffer stays below the block
size for the writer, and for the reader under aligned destinations -/

/-- Counterexample to claim C3 as stated: a block reader of size 2 read
twice with destination length 3 (at least the size, but not a multiple
of it) against a source that fills the destination reaches a pending
buffer of length 2 = size while no terminal condition is recorded. -/
theorem buffer_bound_cex :
    (blockRead (blockRead (initB 2) 3 [0, 1, 2] none).state 3
        [3, 4, 5] none).state.buf.length = 2 ∧
    ¬((blockRead (blockRead (initB 2) 3 [0, 1, 2] none).state 3
        [3, 4, 5] none).state.buf.length < 2) ∧
    (blockRead (blockRead (initB 2) 3 [0, 1, 2] none).state 3
        [3, 4, 5] none).state.err = none := by decide

/-- Claim C3 as amended: after any completed write the pending buffer
is strictly shorter than the block size; the same holds after any
completed read whose destination length is a multiple of the block
size, with no terminal-state exception needed. For a reader given a
destination length that is not a multiple of the size the bound can
fail even in non-terminal states. -/
theorem buffer_bound_amended (S L : Nat) (hS : 1 ≤ S) :
    (∀ (b : Block) (sink : List Nat → Nat × Option Nat) (p : List Nat),
      b.size = S → b.buf.length < S →
      (blockWrite b sink p).state.buf.length < S) ∧
    (∀ (b : Block) (chunk : List Nat) (rerr : Option Nat),
      b.size = S → S ∣ L → b.buf.length < S → chunk.length ≤ L →
      (blockRead b L chunk rerr).state.buf.length < S) := by
  constructor
  · intro b sink p hsize hpre
    rcases hbe : b.err with _ | e
    · by_cases hl : (b.buf ++ p).length / b.size * b.size = 0
      · rw [blockWrite_small b sink p hbe hl]
        exact hsize ▸ div_mul_zero_lt b.size _ (hsize ▸ hS) hl
      · rw [blockWrite_forward b sink p hbe hl]
        rcases hw : (sink ((b.buf ++ p).take
            ((b.buf ++ p).length / b.size * b.size))).2 with _ | e2 <;>
          simp only [hw] <;>
          · simp only [List.length_drop, sub_div_mul_eq_mod]
            rw [hsize]
            exact Nat.mod_lt _ (by omega)
    · rw [blockWrite_errored b sink p e hbe]
      exact hpre
  · intro b chunk rerr hsize hdvd hpre hchunk
    by_cases hdr : b.err.isSome = true ∧ b.buf = []
    · rw [blockRead_drained b L chunk rerr hdr.1 hdr.2]
      exact hpre
    · by_cases hn0 : L / b.size * b.size = 0
      · rw [blockRead_small b L chunk rerr hdr hn0]
        exact hpre
      · have hLn : L / b.size * b.size = L := by
          rw [hsize, Nat.div_mul_cancel hdvd]
        rcases hbe : b.err with _ | e
        · rw [blockRead_active b L chunk rerr hbe hn0]
          simp only [List.length_drop]
          rw [← hsize]
          apply clampN_leftover_lt _ _ _ _ (by omega) hn0
          rw [hLn]
          simp only [List.length_append]
          omega
        · have hbb : b.buf ≠ [] := by
            intro hnil
            exact hdr ⟨by simp [hbe], hnil⟩
          rw [blockRead_errored b L chunk rerr e hbe hbb hn0]
          simp only [List.length_drop]
          omega

/-! ## Claim C1: reader alignment over a whole run -/

/-- A run started in the drained terminal state stops at once. -/
lemma runReader_drained (L fuel : Nat) (b : Block) (src : List Nat)
    (hf : 1 ≤ fuel) (h1 : b.err.isSome = true) (h2 : b.buf = []) :
    runReader L fuel b src = ([], true) := by
  cases fuel with
  | zero => omega
  | succ fuel =>
    simp only [runReader]
    rw [blockRead_drained b L _ _ h1 h2]
    simp [h1]

/-- Shape of the list of read lengths of a reader run: whole multiples
of the block size followed by at most one final length shorter than the
block size. -/
def SplitProp (S : Nat) (ls : List Nat) : Prop :=
  ∃ a t, ls = a ++ t ∧ (∀ x ∈ a, S ∣ x) ∧
    (t = [] ∨ ∃ k, t = [k] ∧ k < S)

lemma splitProp_nil (S : Nat) : SplitProp S [] :=
  ⟨[], [], rfl, by simp, Or.inl rfl⟩

lemma splitProp_single (S k : Nat) (h : k < S) : SplitProp S [k] :=
  ⟨[], [k], rfl, by simp, Or.inr ⟨k, rfl, h⟩⟩

lemma splitProp_cons (S x : Nat) (ls : List Nat) (hx : S ∣ x)
    (h : SplitProp S ls) : SplitProp S (x :: ls) := by
  obtain ⟨a, t, rfl, ha, ht⟩ := h
  refine ⟨x :: a, t, rfl, ?_, ht⟩
  intro y hy
  rcases List.mem_cons.mp hy with rfl | hy
  · exact hx
  · exact ha y hy

/-- The drain phase of a reader run: once the terminal condition is
recorded and the canonical source is exhausted, the buffered bytes are
delivered in whole blocks with at most one final short block, and the
run then stops. -/
lemma runReader_drain (S L : Nat) (hS : 1 ≤ S) (hL : S ≤ L) :
    ∀ (fuel : Nat) (bb : List Nat) (e : Nat), bb.length + 1 ≤ fuel →
      (runReader L fuel ⟨S, bb, some e⟩ []).2 = true ∧
      (runReader L fuel ⟨S, bb, some e⟩ []).1.flatten = bb ∧
      SplitProp S ((runReader L fuel ⟨S, bb, some e⟩ []).1.map
        List.length) := by
  have hdivpos : 1 ≤ L / S := (Nat.one_le_div_iff hS).mpr hL
  have hn0S : S ≤ L / S * S := by
    calc S = 1 * S := (Nat.one_mul S).symm
    _ ≤ L / S * S := Nat.mul_le_mul_right S hdivpos
  have hn0 : L / S * S ≠ 0 := by omega
  intro fuel
  induction fuel with
  | zero =>
    intro bb e hm
    omega
  | succ fuel ih =>
    intro bb e hm
    by_cases hbb : bb = []
    · subst hbb
      rw [runReader_drained L (fuel + 1) ⟨S, [], some e⟩ [] (by omega) rfl
        rfl]
      exact ⟨rfl, rfl, splitProp_nil S⟩
    · have hbl : 1 ≤ bb.length := List.length_pos.mpr hbb
      simp only [runReader]
      rw [blockRead_errored ⟨S, bb, some e⟩ L _ _ e rfl hbb hn0]
      simp only []
      rw [if_neg (show ¬((none : Option Nat).isSome = true) by simp),
        if_neg (show ¬((false : Bool) = true) by simp)]
      have hle := clampN_le_bl S bb.length (L / S * S) (some e)
      have hpos := clampN_pos S bb.length (L / S * S) (some e) rfl hbl
      rcases clampN_cases S bb.length (L / S * S) (some e) hS
          ⟨L / S, Nat.mul_comm _ _⟩ hn0 with hdvd2 | ⟨heq, hlt⟩
      · obtain ⟨f1, f2, f3⟩ := ih (bb.drop
          (clampN S bb.length (L / S * S) (some e))) e
          (by rw [List.length_drop]; omega)
        refine ⟨f1, ?_, ?_⟩
        · simp only [List.flatten_cons]
          rw [f2, List.take_append_drop]
        · simp only [List.map_cons]
          apply splitProp_cons
          · rw [List.length_take, Nat.min_eq_left hle]
            exact hdvd2
          · exact f3
      · rw [heq, List.drop_length]
        rw [runReader_drained L fuel ⟨S, [], some e⟩ [] (by omega) rfl rfl]
        refine ⟨rfl, ?_, ?_⟩
        · simp only [List.flatten_cons, List.flatten_nil, List.append_nil]
          rw [List.take_length]
        · simp only [List.map_cons, List.map_nil]
          apply splitProp_single
          rw [List.take_length]
          exact hlt

/-- Whole-run invariant of the canonical reader: with destinations of
length `L ≥ S` and enough fuel the run terminates, the delivered bytes
concatenate to the pending buffer followed by the remaining source, and
the list of read lengths is whole multiples of `S` followed by at most
one final short length. -/
lemma runReader_spec (S L : Nat) (hS : 1 ≤ S) (hL : S ≤ L) :
    ∀ (fuel : Nat) (b : Block) (src : List Nat), b.size = S →
      (b.err.isSome = true → src = []) → mR b src ≤ fuel →
      (runReader L fuel b src).2 = true ∧
      (runReader L fuel b src).1.flatten = b.buf ++ src ∧
      SplitProp S ((runReader L fuel b src).1.map List.length) := by
  have hdivpos : 1 ≤ L / S := (Nat.one_le_div_iff hS).mpr hL
  have hn0S : S ≤ L / S * S := by
    calc S = 1 * S := (Nat.one_mul S).symm
    _ ≤ L / S * S := Nat.mul_le_mul_right S hdivpos
  have hn0 : L / S * S ≠ 0 := by omega
  have hdvd0 : S ∣ L / S * S := ⟨L / S, Nat.mul_comm _ _⟩
  intro fuel
  induction fuel with
  | zero =>
    intro b src _ _ hm
    exfalso
    unfold mR at hm
    by_cases hbe : b.err.isSome = true
    · rw [if_pos hbe] at hm
      omega
    · rw [if_neg hbe] at hm
      omega
  | succ fuel ih =>
    intro b src hsize hinv hm
    obtain ⟨bs, bb, be⟩ := b
    have hbs : S = bs := hsize.symm
    subst hbs
    rcases be with _ | e
    · -- no recorded error yet
      by_cases hsrc : src = []
      · -- the source is exhausted: this read records the terminal
        -- condition, after which the run drains the buffer
        subst hsrc
        have hmm : bb.length + 3 ≤ fuel + 1 := by
          unfold mR at hm
          rw [if_neg (by simp)] at hm
          simpa using hm
        simp only [runReader]
        have hu : srcRead ([] : List Nat) L = ([], some 0, []) := by
          simp [srcRead]
        simp only [hu]
        rw [blockRead_active ⟨S, bb, none⟩ L [] (some 0) rfl hn0]
        simp only [List.append_nil]
        rw [if_neg (show ¬((none : Option Nat).isSome = true) by simp)]
        simp only [if_true]
        have hle := clampN_le_bl S bb.length (L / S * S) (some 0)
        rcases clampN_cases S bb.length (L / S * S) (some 0) hS hdvd0 hn0
            with hdvd2 | ⟨heq, hlt⟩
        · obtain ⟨f1, f2, f3⟩ := runReader_drain S L hS hL fuel
            (bb.drop (clampN S bb.length (L / S * S) (some 0))) 0
            (by rw [List.length_drop]; omega)
          refine ⟨f1, ?_, ?_⟩
          · simp only [List.flatten_cons]
            rw [f2, List.take_append_drop]
          · simp only [List.map_cons]
            apply splitProp_cons
            · rw [List.length_take, Nat.min_eq_left hle]
              exact hdvd2
            · exact f3
        · rw [heq, List.drop_length]
          rw [runReader_drained L fuel ⟨S, [], some 0⟩ [] (by omega) rfl
            rfl]
          refine ⟨rfl, ?_, ?_⟩
          · simp only [List.flatten_cons, List.flatten_nil,
              List.append_nil]
            rw [List.take_length]
          · simp only [List.map_cons, List.map_nil]
            apply splitProp_single
            rw [List.take_length]
            exact hlt
      · -- data remains: one aligned step, then the run continues
        have hsl : 1 ≤ src.length := List.length_pos.mpr hsrc
        have hL1 : 1 ≤ L := le_trans hS hL
        simp only [runReader]
        have hu : srcRead src L = (src.take L, none, src.drop L) := by
          simp [srcRead, hsrc]
        simp only [hu]
        rw [blockRead_active ⟨S, bb, none⟩ L (src.take L) none rfl hn0]
        rw [if_neg (show ¬((none : Option Nat).isSome = true) by simp)]
        simp only [if_true]
        have hle := clampN_le_bl S (bb ++ src.take L).length (L / S * S)
          none
        have hmeas : mR ⟨S, (bb ++ src.take L).drop
            (clampN S (bb ++ src.take L).length (L / S * S) none),
            none⟩ (src.drop L) ≤ fuel := by
          have hm2 : 2 * src.length + bb.length + 3 ≤ fuel + 1 := by
            simpa [mR] using hm
          simp [mR, List.length_drop, List.length_append,
            List.length_take]
          omega
        obtain ⟨f1, f2, f3⟩ := ih ⟨S, (bb ++ src.take L).drop
            (clampN S (bb ++ src.take L).length (L / S * S) none), none⟩
          (src.drop L) rfl (by intro h; simp at h) hmeas
        refine ⟨f1, ?_, ?_⟩
        · simp only [List.flatten_cons]
          rw [f2]
          simp only []
          rw [← List.append_assoc, List.take_append_drop,
            List.append_assoc, List.take_append_drop]
        · simp only [List.map_cons]
          apply splitProp_cons
          · rw [List.length_take, Nat.min_eq_left hle]
            exact clampN_none_dvd S _ _ hdvd0
          · exact f3
    · -- terminal condition already recorded: pure drain
      have hsrc : src = [] := hinv rfl
      subst hsrc
      have hmm : bb.length + 1 ≤ fuel + 1 := by
        unfold mR at hm
        rw [if_pos (by simp)] at hm
        simpa using hm
      obtain ⟨d1, d2, d3⟩ := runReader_drain S L hS hL (fuel + 1) bb e hmm
      exact ⟨d1, by rw [d2]; simp, d3⟩

/-- The sum of the non-zero entries equals the sum of all entries. -/
lemma sum_filter_ne_zero (l : List Nat) :
    (l.filter (fun x => x ≠ 0)).sum = l.sum := by
  induction l with
  | nil => rfl
  | cons x xs ih =>
    by_cases hx : x = 0
    · subst hx
      rw [List.filter_cons_of_neg (by simp), List.sum_cons, ih]
      omega
    · rw [List.filter_cons_of_pos (by simpa using hx), List.sum_cons,
        List.sum_cons, ih]

/-- What the trace shape gives about the final non-zero read length:
every length before the last is a whole number of blocks, and the last
positive length is the input length modulo the size when that is not
zero, and a positive whole number of blocks otherwise. -/
lemma splitProp_conclusions (S : Nat) (hS : 1 ≤ S) (ls : List Nat)
    (hsp : SplitProp S ls) :
    (∀ x ∈ ls.dropLast, S ∣ x) ∧
    (ls.sum % S ≠ 0 →
      (ls.filter (fun x => x ≠ 0)).getLast? = some (ls.sum % S)) ∧
    (ls.sum % S = 0 → 0 < ls.sum →
      ∃ m, (ls.filter (fun x => x ≠ 0)).getLast? = some m ∧
        S ∣ m ∧ 0 < m) := by
  obtain ⟨a, t, rfl, ha, ht⟩ := hsp
  have hsuma : S ∣ a.sum := List.dvd_sum ha
  have main_nodvd : ∀ (l : List Nat), l = a → l.sum % S ≠ 0 → False := by
    intro l hl hne
    subst hl
    obtain ⟨q, hq⟩ := hsuma
    apply hne
    rw [hq, Nat.mul_mod_right]
  have main_dvd : ∀ (l : List Nat), (l.filter (fun x => x ≠ 0)).sum =
      a.sum → l.sum % S = 0 → 0 < a.sum →
      (∀ y ∈ l.filter (fun x => x ≠ 0), y ∈ a) →
      ∃ m, (l.filter (fun x => x ≠ 0)).getLast? = some m ∧
        S ∣ m ∧ 0 < m := by
    intro l hfsum _ hpos hsub
    have hne : l.filter (fun x => x ≠ 0) ≠ [] := by
      intro h0
      rw [h0] at hfsum
      simp at hfsum
      omega
    refine ⟨(l.filter (fun x => x ≠ 0)).getLast hne,
      List.getLast?_eq_getLast _ hne, ?_, ?_⟩
    · exact ha _ (hsub _ (List.getLast_mem hne))
    · have hmem := List.getLast_mem hne
      have hY := List.of_mem_filter hmem
      have hz2 : (l.filter (fun x => x ≠ 0)).getLast hne ≠ 0 := by
        simpa using hY
      omega
  rcases ht with rfl | ⟨k, rfl, hk⟩
  · simp only [List.append_nil]
    refine ⟨fun x hx => ha x (List.dropLast_subset a hx), ?_, ?_⟩
    · intro hne
      exact absurd (main_nodvd a rfl hne) (fun h => h)
    · intro hz hpos
      exact main_dvd a (sum_filter_ne_zero a) hz hpos
        (fun y hy => List.mem_of_mem_filter hy)
  · by_cases hk0 : k = 0
    · subst hk0
      have hfeq : (a ++ [0]).filter (fun x => x ≠ 0) =
          a.filter (fun x => x ≠ 0) := by
        rw [List.filter_append]
        simp
      have hsum0 : (a ++ [0]).sum = a.sum := by
        rw [List.sum_append]
        simp
      refine ⟨?_, ?_, ?_⟩
      · intro x hx
        rw [List.dropLast_concat] at hx
        exact ha x hx
      · intro hne
        rw [hsum0] at hne
        exact absurd (main_nodvd a rfl hne) (fun h => h)
      · intro hz hpos
        rw [hsum0] at hz hpos
        rw [hfeq]
        exact main_dvd a (sum_filter_ne_zero a) hz hpos
          (fun y hy => List.mem_of_mem_filter hy)
    · have hmod : (a ++ [k]).sum % S = k := by
        rw [List.sum_append]
        obtain ⟨q, hq⟩ := hsuma
        rw [hq]
        simp only [List.sum_cons, List.sum_nil, Nat.add_zero]
        rw [Nat.mul_add_mod]
        exact Nat.mod_eq_of_lt hk
      have hlast : ((a ++ [k]).filter (fun x => x ≠ 0)).getLast? =
          some k := by
        rw [List.filter_append]
        have : [k].filter (fun x => x ≠ 0) = [k] := by
          simp [List.filter_cons, hk0]
        rw [this, List.getLast?_concat]
      refine ⟨?_, ?_, ?_⟩
      · intro x hx
        rw [List.dropLast_concat] at hx
        exact ha x hx
      · intro _
        rw [hlast, hmod]
      · intro hz _
        rw [hmod] at hz
        exact absurd hz hk0

/-- Counterexample to claim C1 as stated: reading the four-byte input
through a block reader of size 2 with destination length 4 terminates
with a single non-zero read of length 4, though the claim demands the
final non-zero read length be N mod S = 0, hence S = 2. -/
theorem blockReader_alignment_cex :
    (runReader 4 12 (initB 2) [1, 2, 3, 4]).2 = true ∧
    ((((runReader 4 12 (initB 2) [1, 2, 3, 4]).1.map List.length).filter
      (fun x => x ≠ 0)).getLast? = some 4) ∧
    ([1, 2, 3, 4] : List Nat).length % 2 = 0 ∧ (4 : Nat) ≠ 2 := by decide

/-- Claim C1 as amended: for an input of length N read to exhaustion
through a block reader of size S with destination buffers of length
L ≥ S, every read length before the final non-zero one is a multiple
of S, the final non-zero read length equals N mod S when that is not
zero and is otherwise a positive multiple of S (not necessarily S
itself), and the concatenation of all returned bytes is the input. -/
theorem blockReader_alignment (S L : Nat) (input : List Nat)
    (hS : 1 ≤ S) (hL : S ≤ L) (fuel : Nat)
    (hf : mR (initB S) input ≤ fuel) :
    (runReader L fuel (initB S) input).2 = true ∧
    (runReader L fuel (initB S) input).1.flatten = input ∧
    (∀ x ∈ ((runReader L fuel (initB S) input).1.map
      List.length).dropLast, S ∣ x) ∧
    (input.length % S ≠ 0 →
      (((runReader L fuel (initB S) input).1.map List.length).filter
        (fun x => x ≠ 0)).getLast? = some (input.length % S)) ∧
    (input.length % S = 0 → 0 < input.length →
      ∃ m, (((runReader L fuel (initB S) input).1.map
          List.length).filter (fun x => x ≠ 0)).getLast? = some m ∧
        S ∣ m ∧ 0 < m) := by
  obtain ⟨h1, h2, h3⟩ := runReader_spec S L hS hL fuel (initB S) input
    rfl (fun h => by simp [initB] at h) hf
  simp only [show (initB S).buf = [] from rfl, List.nil_append] at h2
  have hsum : ((runReader L fuel (initB S) input).1.map
      List.length).sum = input.length := by
    rw [← List.length_flatten, h2]
  obtain ⟨g1, g2, g3⟩ := splitProp_conclusions S hS _ h3
  rw [hsum] at g2 g3
  exact ⟨h1, h2, g1, g2, g3⟩

theorem blockReader_alignment_witness :
    (runReader 5 23 (initB 3)
      [48, 49, 50, 51, 52, 53, 54, 55, 56, 57]).2 = true ∧
    (runReader 5 23 (initB 3)
      [48, 49, 50, 51, 52, 53, 54, 55, 56, 57]).1.flatten =
      [48, 49, 50, 51, 52, 53, 54, 55, 56, 57] ∧
    (∀ x ∈ ((runReader 5 23 (initB 3)
        [48, 49, 50, 51, 52, 53, 54, 55, 56, 57]).1.map
      List.length).dropLast, 3 ∣ x) ∧
    (([48, 49, 50, 51, 52, 53, 54, 55, 56, 57] :
        List Nat).length % 3 ≠ 0 →
      (((runReader 5 23 (initB 3)
          [48, 49, 50, 51, 52, 53, 54, 55, 56, 57]).1.map
        List.length).filter (fun x => x ≠ 0)).getLast? =
        some (([48, 49, 50, 51, 52, 53, 54, 55, 56, 57] :
          List Nat).length % 3)) ∧
    (([48, 49, 50, 51, 52, 53, 54, 55, 56, 57] :
        List Nat).length % 3 = 0 →
      0 < ([48, 49, 50, 51, 52, 53, 54, 55, 56, 57] :
        List Nat).length →
      ∃ m, (((runReader 5 23 (initB 3)
          [48, 49, 50, 51, 52, 53, 54, 55, 56, 57]).1.map
          List.length).filter (fun x => x ≠ 0)).getLast? = some m ∧
        3 ∣ m ∧ 0 < m) :=
  blockReader_alignment 3 5 [48, 49, 50, 51, 52, 53, 54, 55, 56, 57]
    (by decide) (by decide) 23 (by decide)

/-! ## Claim C2: the writer forwards whole blocks, the close flushes
the remainder -/

/-- One write against the always-accepting sink, as a single equation:
whole blocks are forwarded in one call (when there are any) and the
remainder stays buffered. -/
lemma blockWrite_perfect (b : Block) (p : List Nat) (h : b.err = none) :
    blockWrite b perfectSink p =
      ⟨⟨b.size, (b.buf ++ p).drop ((b.buf ++ p).length / b.size * b.size),
        none⟩, p.length, none,
       if (b.buf ++ p).length / b.size * b.size = 0 then []
       else [(b.buf ++ p).take ((b.buf ++ p).length / b.size * b.size)]⟩ := by
  by_cases hl : (b.buf ++ p).length / b.size * b.size = 0
  · rw [blockWrite_small b perfectSink p h hl, if_pos hl, hl, List.drop_zero]
  · rw [blockWrite_forward b perfectSink p h hl, if_neg hl]
    rfl

/-- Invariant of a write sequence against the always-accepting sink:
the adapter stays error free, the sink calls concatenate with the
pending buffer to the full input, the pending buffer holds exactly the
input length modulo the block size, and every sink call is a non-empty
whole number of blocks. -/
lemma runWriter_perfect (S : Nat) (hS : 1 ≤ S) :
    ∀ (ws : List (List Nat)) (b : Block), b.size = S → b.err = none →
      b.buf.length < S →
      (runWriter perfectSink b ws).1.size = S ∧
      (runWriter perfectSink b ws).1.err = none ∧
      ((runWriter perfectSink b ws).2.flatten ++
        (runWriter perfectSink b ws).1.buf = b.buf ++ ws.flatten) ∧
      (runWriter perfectSink b ws).1.buf.length
        = (b.buf.length + ws.flatten.length) % S ∧
      (∀ c ∈ (runWriter perfectSink b ws).2, 0 < c.length ∧ S ∣ c.length) := by
  intro ws
  induction ws with
  | nil =>
    intro b hsize herr hlt
    refine ⟨hsize, herr, by simp [runWriter], ?_, by simp [runWriter]⟩
    simp only [runWriter, List.flatten_nil, List.length_nil, Nat.add_zero]
    exact (Nat.mod_eq_of_lt hlt).symm
  | cons p ps ih =>
    intro b hsize herr hlt
    have hstep := blockWrite_perfect b p herr
    have hslen : ((b.buf ++ p).drop
        ((b.buf ++ p).length / b.size * b.size)).length
        = (b.buf ++ p).length % S := by
      rw [List.length_drop, sub_div_mul_eq_mod, hsize]
    have hrec := ih ⟨b.size, (b.buf ++ p).drop
        ((b.buf ++ p).length / b.size * b.size), none⟩ hsize rfl
      (by
        show ((b.buf ++ p).drop
          ((b.buf ++ p).length / b.size * b.size)).length < S
        rw [hslen]
        exact Nat.mod_lt _ (by omega))
    have hrun : runWriter perfectSink b (p :: ps) =
        ((runWriter perfectSink ⟨b.size, (b.buf ++ p).drop
            ((b.buf ++ p).length / b.size * b.size), none⟩ ps).1,
         (if (b.buf ++ p).length / b.size * b.size = 0 then []
          else [(b.buf ++ p).take ((b.buf ++ p).length / b.size * b.size)])
          ++ (runWriter perfectSink ⟨b.size, (b.buf ++ p).drop
            ((b.buf ++ p).length / b.size * b.size), none⟩ ps).2) := by
      simp only [runWriter, hstep]
    rw [hrun]
    obtain ⟨ih1, ih2, ih3, ih4, ih5⟩ := hrec
    refine ⟨ih1, ih2, ?_, ?_, ?_⟩
    · simp only [List.flatten_append]
      by_cases hl : (b.buf ++ p).length / b.size * b.size = 0
      · rw [if_pos hl]
        simp only [List.flatten_nil, List.nil_append]
        rw [ih3]
        simp only [List.flatten_cons]
        rw [hl, List.drop_zero]
        simp
      · rw [if_neg hl]
        simp only [List.flatten_cons, List.flatten_nil, List.nil_append,
          List.append_nil]
        rw [List.append_assoc, ih3, ← List.append_assoc,
          List.take_append_drop]
        simp [List.flatten_cons]
    · rw [ih4]
      simp only []
      rw [hslen]
      simp only [List.flatten_cons, List.length_append]
      rw [Nat.mod_add_mod]
      ring_nf
    · intro c hc
      by_cases hl : (b.buf ++ p).length / b.size * b.size = 0
      · rw [if_pos hl] at hc
        simp only [List.nil_append] at hc
        exact ih5 c hc
      · rw [if_neg hl] at hc
        rcases List.mem_append.mp hc with hc1 | hc2
        · have hceq : c = (b.buf ++ p).take
              ((b.buf ++ p).length / b.size * b.size) := by
            simpa using hc1
          subst hceq
          rw [List.length_take,
            Nat.min_eq_left (Nat.div_mul_le_self _ _)]
          refine ⟨by omega, ?_⟩
          rw [hsize]
          exact ⟨(b.buf ++ p).length / S, Nat.mul_comm _ _⟩
        · exact ih5 c hc2

/-- Claim C2: for writes with total length N against a sink that never
errors, every sink call made by the writes is a non-empty whole number
of blocks, close then succeeds, its flush call (present exactly when N
is not a multiple of S) carries N mod S bytes, and the concatenation of
everything the sink receives is the concatenation of the inputs. -/
theorem blockWriter_chunking (S : Nat) (hS : 1 ≤ S)
    (ws : List (List Nat)) :
    (∀ c ∈ (runWriter perfectSink (initB S) ws).2,
      0 < c.length ∧ S ∣ c.length) ∧
    (blockClose (runWriter perfectSink (initB S) ws).1
      perfectSink).2.1 = none ∧
    (ws.flatten.length % S = 0 →
      (blockClose (runWriter perfectSink (initB S) ws).1
        perfectSink).2.2 = []) ∧
    (ws.flatten.length % S ≠ 0 →
      ∃ c, (blockClose (runWriter perfectSink (initB S) ws).1
          perfectSink).2.2 = [c] ∧ c.length = ws.flatten.length % S) ∧
    ((runWriter perfectSink (initB S) ws).2 ++
      (blockClose (runWriter perfectSink (initB S) ws).1
        perfectSink).2.2).flatten = ws.flatten := by
  obtain ⟨h1, h2, h3, h4, h5⟩ :=
    runWriter_perfect S hS ws (initB S) rfl rfl (by simpa using hS)
  simp only [show (initB S).buf = [] from rfl, List.nil_append,
    List.length_nil, Nat.zero_add] at h3 h4
  by_cases hz : ws.flatten.length % S = 0
  · have hbuf : (runWriter perfectSink (initB S) ws).1.buf = [] := by
      have : (runWriter perfectSink (initB S) ws).1.buf.length = 0 := by
        rw [h4, hz]
      exact List.length_eq_zero.mp this
    have hclose : blockClose (runWriter perfectSink (initB S) ws).1
        perfectSink = ((runWriter perfectSink (initB S) ws).1, none, []) := by
      unfold blockClose
      rw [if_neg (show ¬ (runWriter perfectSink (initB S) ws).1.err.isSome
          = true by simp [h2]), if_neg (by rw [hbuf]; simp)]
    rw [hclose]
    refine ⟨h5, rfl, fun _ => rfl, fun hne => absurd hz hne, ?_⟩
    rw [List.append_nil]
    rw [hbuf, List.append_nil] at h3
    exact h3
  · have hpos : 0 < (runWriter perfectSink (initB S) ws).1.buf.length := by
      rw [h4]
      omega
    have hclose : blockClose (runWriter perfectSink (initB S) ws).1
        perfectSink = ((runWriter perfectSink (initB S) ws).1, none,
          [(runWriter perfectSink (initB S) ws).1.buf]) := by
      unfold blockClose
      rw [if_neg (show ¬ (runWriter perfectSink (initB S) ws).1.err.isSome
          = true by simp [h2]), if_pos hpos]
      rfl
    rw [hclose]
    refine ⟨h5, rfl, fun hzz => absurd hzz hz, fun _ => ⟨_, rfl, by rw [h4]⟩,
      ?_⟩
    simp only [List.flatten_append, List.flatten_cons, List.flatten_nil,
      List.append_nil]
    exact h3

theorem blockWriter_chunking_witness :
    (∀ c ∈ (runWriter perfectSink (initB 2)
        [[48, 49, 50, 51, 52], [53, 54, 55, 56], [57, 48]]).2,
      0 < c.length ∧ 2 ∣ c.length) ∧
    (blockClose (runWriter perfectSink (initB 2)
        [[48, 49, 50, 51, 52], [53, 54, 55, 56], [57, 48]]).1
      perfectSink).2.1 = none ∧
    (([[48, 49, 50, 51, 52], [53, 54, 55, 56],
        [57, 48]] : List (List Nat)).flatten.length % 2 = 0 →
      (blockClose (runWriter perfectSink (initB 2)
          [[48, 49, 50, 51, 52], [53, 54, 55, 56], [57, 48]]).1
        perfectSink).2.2 = []) ∧
    (([[48, 49, 50, 51, 52], [53, 54, 55, 56],
        [57, 48]] : List (List Nat)).flatten.length % 2 ≠ 0 →
      ∃ c, (blockClose (runWriter perfectSink (initB 2)
          [[48, 49, 50, 51, 52], [53, 54, 55, 56], [57, 48]]).1
          perfectSink).2.2 = [c] ∧
        c.length = ([[48, 49, 50, 51, 52], [53, 54, 55, 56],
          [57, 48]] : List (List Nat)).flatten.length % 2) ∧
    ((runWriter perfectSink (initB 2)
        [[48, 49, 50, 51, 52], [53, 54, 55, 56], [57, 48]]).2 ++
      (blockClose (runWriter perfectSink (initB 2)
          [[48, 49, 50, 51, 52], [53, 54, 55, 56], [57, 48]]).1
        perfectSink).2.2).flatten =
      ([[48, 49, 50, 51, 52], [53, 54, 55, 56],
        [57, 48]] : List (List Nat)).flatten :=
  blockWriter_chunking 2 (by decide)
    [[48, 49, 50, 51, 52], [53, 54, 55, 56], [57, 48]]

theorem buffer_bound_amended_witness :
    (blockWrite ⟨2, [9], none⟩ perfectSink [1, 2, 3]).state.buf.length
      < 2 ∧
    (blockRead ⟨2, [1], none⟩ 4 [5, 6, 7] none).state.buf.length < 2 :=
  ⟨(buffer_bound_amended 2 4 (by decide)).1 ⟨2, [9], none⟩ perfectSink
      [1, 2, 3] rfl (by decide),
   (buffer_bound_amended 2 4 (by decide)).2 ⟨2, [1], none⟩ [5, 6, 7]
      none rfl (by decide) (by decide) (by decide)⟩

end Wrapio

